import Mathlib

/-
Shallow embedding of src/my_falcon/images.py.

The repository is a small Falcon image service.  The logic verified here is:
  - ImageStore._IMAGE_NAME_PATTERN, a Python regular expression
    [0-9a-f]{8}-[0-9a-f]{4}-[0-9a-f]{4}-[0-9a-f]{4}-[0-9a-f]{12}\.[a-z]{2,4}$
    used via re.match (anchored at the start of the string; Python $ matches
    at the end of the string or just before a single trailing newline);
  - ImageStore.save, which derives an extension with mimetypes.guess_extension,
    builds the name str(uuidgen()) + str(ext), and copies the request stream to
    storage_path/name in 4096-byte reads until a read returns no bytes;
  - ImageStore.open, which validates the name against the pattern (raising
    IOError on mismatch) and only then joins the path, opens the file and
    measures its size;
  - the Collection POST handler (guarded by the validate_image_types before
    hook) and the Item GET handler (content type from mimetypes.guess_type,
    IOError translated to HTTP 404 with no body).

Streams are modelled as a list of pending non-degenerate buffers; a read of n
bytes returns at most n bytes from the front buffer, and returns the empty
chunk once the buffers are exhausted.  The filesystem is an association list
from full paths to byte contents.  Bytes are modelled as Nat.
-/

/-- Decides whether a character is a lowercase hexadecimal digit, the
character class [0-9a-f] of the image-name pattern. -/
def isLowerHexDigit (c : Char) : Bool :=
  (48 ≤ c.toNat && c.toNat ≤ 57) || (97 ≤ c.toNat && c.toNat ≤ 102)

/-- Decides whether a character is a lowercase latin letter, the character
class [a-z] of the image-name pattern. -/
def isLowerAlpha (c : Char) : Bool :=
  97 ≤ c.toNat && c.toNat ≤ 122

/-- Consumes exactly n lowercase-hex characters from the front of the list,
returning the remainder; models a [0-9a-f]-n- fixed-repetition regex atom. -/
def consumeHex : Nat → List Char → Option (List Char)
  | 0, cs => some cs
  | _ + 1, [] => none
  | n + 1, c :: cs => if isLowerHexDigit c then consumeHex n cs else none

/-- Consumes one occurrence of the literal character c from the front of the
list, returning the remainder. -/
def consumeChar (c : Char) : List Char → Option (List Char)
  | [] => none
  | x :: xs => if x = c then some xs else none

/-- Sequences two consumers, feeding the remainder of the first into the
second; models regex concatenation. -/
def cseq (f g : List Char → Option (List Char)) : List Char → Option (List Char) :=
  fun cs => f cs >>= g

/-- Consumes the UUID part of the image-name pattern: lowercase-hex groups of
8-4-4-4-12 separated by hyphens. -/
def uuidCore : List Char → Option (List Char) :=
  cseq (consumeHex 8) (cseq (consumeChar '-')
    (cseq (consumeHex 4) (cseq (consumeChar '-')
      (cseq (consumeHex 4) (cseq (consumeChar '-')
        (cseq (consumeHex 4) (cseq (consumeChar '-') (consumeHex 12))))))))

/-- Decides whether the remainder of a string may follow the extension under
Python dollar-anchor semantics: the end of the string, or a single trailing
newline character. -/
def pyDollarEnd : List Char → Bool
  | [] => true
  | [c] => c = '\n'
  | _ => false

/-- Decides whether cs consists of exactly k lowercase letters followed by a
position where the Python dollar anchor matches. -/
def extAt (k : Nat) (cs : List Char) : Bool :=
  decide (k ≤ cs.length) && (cs.take k).all isLowerAlpha && pyDollarEnd (cs.drop k)

/-- Model of bool(ImageStore._IMAGE_NAME_PATTERN.match(name)): the regex
[0-9a-f]{8}-[0-9a-f]{4}-[0-9a-f]{4}-[0-9a-f]{4}-[0-9a-f]{12}\.[a-z]{2,4}$
matched at the start of the string, with Python re semantics for the final
dollar (it also matches just before one trailing newline). -/
def matchesImageName (s : String) : Bool :=
  match cseq uuidCore (consumeChar '.') s.data with
  | none => false
  | some rest => extAt 2 rest || extAt 3 rest || extAt 4 rest

/-- Decides whether cs consists of exactly k lowercase letters and nothing
else, the strict reading of the extension part. -/
def extStrictAt (k : Nat) (cs : List Char) : Bool :=
  decide (k ≤ cs.length) && (cs.take k).all isLowerAlpha && (cs.drop k).isEmpty

/-- Modelled from the spec's words, for comparison with matchesImageName: a
lowercase-hex UUID in groups 8-4-4-4-12, a dot, then an extension of 2-4
lowercase letters, with nothing before or after. -/
def specStrictName (s : String) : Bool :=
  match cseq uuidCore (consumeChar '.') s.data with
  | none => false
  | some rest => extStrictAt 2 rest || extStrictAt 3 rest || extStrictAt 4 rest

/-- Decides whether s matches the strict spec pattern, or is the strict spec
pattern followed by exactly one trailing newline; this is what the code's
re.match call actually accepts. -/
def specStrictNameOrNl (s : String) : Bool :=
  specStrictName s ||
    (match s.data.getLast? with
     | some c => decide (c = '\n') && specStrictName (String.mk s.data.dropLast)
     | none => false)

/-- Decides whether a string is the textual form of a UUID: lowercase-hex
groups of 8-4-4-4-12 separated by hyphens, nothing else.  This is the shape of
str(uuid.uuid4()), the store's default injected name generator. -/
def isUuidString (s : String) : Bool :=
  match uuidCore s.data with
  | some [] => true
  | _ => false

/-- Model of Python mimetypes.guess_extension restricted to the media types
this service works with; unrecognized types yield none, as guess_extension
returns None for types absent from its table. -/
def mimetypes_guess_extension (content_type : String) : Option String :=
  if content_type = "image/gif" then some ".gif"
  else if content_type = "image/jpeg" then some ".jpg"
  else if content_type = "image/png" then some ".png"
  else none

/-- Returns the extension suffix of a name starting at its last dot (dot
included), or none when the name has no dot; models the extension extraction
done by Python mimetypes.guess_type via splitext. -/
def extAfterLastDot : List Char → Option (List Char)
  | [] => none
  | c :: rest =>
    match extAfterLastDot rest with
    | some e => some e
    | none => if c = '.' then some ('.' :: rest) else none

/-- Model of mimetypes.guess_type(name)[0] restricted to the image extensions
relevant to this service: the MIME type mapped from the name's final
extension, or none when the extension is not in the table. -/
def mimetypes_guess_type_fst (name : String) : Option String :=
  match extAfterLastDot name.data with
  | none => none
  | some e =>
    let ext := String.mk e
    if ext = ".png" then some "image/png"
    else if ext = ".gif" then some "image/gif"
    else if ext = ".jpg" then some "image/jpeg"
    else if ext = ".jpeg" then some "image/jpeg"
    else if ext = ".jpe" then some "image/jpeg"
    else none

/-- Model of Python str applied to the result of mimetypes.guess_extension as
it is interpolated into the format string: a missing extension formats as the
literal text None. -/
def pyFormatExt : Option String → String
  | some e => e
  | none => "None"

/-- Model of os.path.join(storage_path, name) for the relative names this
service produces: the directory, a path separator, then the name. -/
def os_path_join (dir name : String) : String :=
  dir ++ "/" ++ name

/-- Filesystem model: an association list from full paths to file contents
(bytes as Nat).  Later entries are shadowed by earlier ones. -/
abbrev Fs : Type := List (String × List Nat)

/-- Looks a path up in the filesystem, returning the file's bytes when the
file exists; models opening an existing file for reading. -/
def lookupFs : Fs → String → Option (List Nat)
  | [], _ => none
  | (k, v) :: rest, p => if k = p then some v else lookupFs rest p

/-- Writes a file at a path, replacing any previous content; models opening a
path in mode wb and writing it in full. -/
def writeFs (fs : Fs) (p : String) (content : List Nat) : Fs :=
  (p, content) :: fs

/-- Stream model: the pending buffers of an incoming byte stream.  A read of n
bytes returns up to n bytes from the front buffer; an exhausted stream returns
the empty chunk, which the copy loop treats as end-of-stream. -/
abbrev ByteStream : Type := List (List Nat)

/-- Model of stream.read(n): returns the front buffer when it has at most n
bytes, otherwise the first n bytes of it, together with the rest of the
stream; returns the empty chunk on an exhausted stream. -/
def streamRead (n : Nat) : ByteStream → List Nat × ByteStream
  | [] => ([], [])
  | b :: rest => if b.length ≤ n then (b, rest) else (b.take n, b.drop n :: rest)

/-- Model of ImageStore.__CHUNK_SIZE_BYTES. -/
def CHUNK_SIZE_BYTES : Nat := 4096

/-- Total number of pending bytes of a stream; the termination measure of the
copy loop. -/
def streamBytes (s : ByteStream) : Nat :=
  (s.map List.length).sum

theorem streamRead_fst_length_le (n : Nat) (s : ByteStream) :
    ((streamRead n s).1).length ≤ n ∨ (streamRead n s).1 = [] := by
  match s with
  | [] => exact Or.inr rfl
  | b :: rest =>
    by_cases h : b.length ≤ n
    · simp [streamRead, h]
    · left
      simp [streamRead, h, List.length_take]

theorem streamRead_decreases (n : Nat) (s : ByteStream)
    (hn : 0 < n) (h : (streamRead n s).1 ≠ []) :
    streamBytes (streamRead n s).2 < streamBytes s := by
  match s with
  | [] => simp [streamRead] at h
  | b :: rest =>
    by_cases hb : b.length ≤ n
    · have hlen : 0 < b.length := by
        rcases Nat.eq_zero_or_pos b.length with h0 | h0
        · exact absurd (List.eq_nil_of_length_eq_zero h0)
            (by simpa [streamRead, hb] using h)
        · exact h0
      simp only [streamRead, hb, if_true, streamBytes, List.map_cons, List.sum_cons]
      omega
    · simp only [streamRead, hb, if_false, streamBytes, List.map_cons, List.sum_cons,
        List.length_drop]
      omega

/-- Model of the while-loop body of ImageStore.save: repeatedly read a chunk
of at most CHUNK_SIZE_BYTES bytes, stop at the first empty chunk, and return
the concatenation of everything written to the file. -/
def copyLoop (s : ByteStream) : List Nat :=
  let r := streamRead CHUNK_SIZE_BYTES s
  if h : r.1 = [] then []
  else r.1 ++ copyLoop r.2
termination_by streamBytes s
decreasing_by
  exact streamRead_decreases CHUNK_SIZE_BYTES s (by decide) h

/-- Model of ImageStore.save(image_stream, image_content_type).  The injected
uuid generator is modelled by its produced string u (str(self._uuidgen())).
Returns the generated name and the filesystem extended with the fully written
file at storage_path/name. -/
def ImageStore.save (storage_path u content_type : String)
    (image_stream : ByteStream) (fs : Fs) : String × Fs :=
  let ext := mimetypes_guess_extension content_type
  let name := u ++ pyFormatExt ext
  let image_path := os_path_join storage_path name
  (name, writeFs fs image_path (copyLoop image_stream))

/-- Error raised by ImageStore.open; both the validation failure and a failed
file open surface as this one exception type (IOError), carrying only a
message. -/
structure IOErr where
  msg : String
deriving DecidableEq

/-- Filesystem operations ImageStore.open can perform, recorded in order:
opening a path for reading, and measuring a file's size. -/
inductive FsAccess where
  | openR (path : String)
  | getsize (path : String)
deriving DecidableEq

/-- Model of ImageStore.open(name), instrumented with the list of filesystem
accesses performed.  The name is validated first; on mismatch the method
raises IOError before computing a path or touching the filesystem.  Otherwise
the path is joined, the file opened (raising IOError when absent) and its size
measured. -/
def ImageStore.openT (storage_path : String) (fs : Fs) (name : String) :
    Except IOErr (List Nat × Nat) × List FsAccess :=
  if matchesImageName name = false then
    (Except.error ⟨"File not found"⟩, [])
  else
    let image_path := os_path_join storage_path name
    match lookupFs fs image_path with
    | none => (Except.error ⟨"No such file or directory"⟩, [FsAccess.openR image_path])
    | some bytes =>
      (Except.ok (bytes, bytes.length),
       [FsAccess.openR image_path, FsAccess.getsize image_path])

/-- Model of ImageStore.open(name): the returned stream's bytes and the
stream length, or the raised IOError. -/
def ImageStore.openImage (storage_path : String) (fs : Fs) (name : String) :
    Except IOErr (List Nat × Nat) :=
  (ImageStore.openT storage_path fs name).1

/-- Model of the module constant ALLOWED_IMAGE_TYPES. -/
def ALLOWED_IMAGE_TYPES : List String :=
  ["image/gif", "image/jpeg", "image/png"]

/-- Errors raised by the handlers; falcon converts HTTPBadRequest into a 400
client-error response and HTTPNotFound into a 404 response. -/
inductive HTTPError where
  | badRequest (title msg : String)
  | notFound
deriving DecidableEq

/-- Model of the validate_image_types before hook: raises HTTPBadRequest when
the declared content type is not in the allow-list. -/
def validate_image_types (content_type : String) : Except HTTPError Unit :=
  if content_type ∉ ALLOWED_IMAGE_TYPES then
    Except.error (HTTPError.badRequest "Bad request"
      "Image Type not allowed. Must be PNG, JPEG, or GIF")
  else
    Except.ok ()

/-- Response produced by the Collection POST handler on success: the HTTP
status code and the Location header value. -/
structure PostResp where
  status : Nat
  location : Option String
deriving DecidableEq

/-- Model of Collection.on_post guarded by the falcon before hook: the hook
runs first and an error it raises prevents the responder from running, so the
store is only reached after validation; on success the handler saves the
stream and responds 201 with a Location built from the returned name. -/
def Collection.on_post (storage_path u content_type : String)
    (stream : ByteStream) (fs : Fs) : Except HTTPError (PostResp × Fs) :=
  match validate_image_types content_type with
  | Except.error e => Except.error e
  | Except.ok _ =>
    let r := ImageStore.save storage_path u content_type stream fs
    Except.ok ({ status := 201, location := some ("/images/" ++ r.1) }, r.2)

/-- Response produced by the Item GET handler after falcon's error
translation: the status code, the declared content type, the body bytes and
the declared stream length.  A raised HTTPNotFound renders as 404 with no
body and no content type. -/
structure GetResp where
  status : Nat
  contentType : Option String
  body : Option (List Nat)
  streamLen : Option Nat
deriving DecidableEq

/-- Model of Item.on_get: sets the response content type from
mimetypes.guess_type(name)[0], then asks the store to open the name; the
store's IOError is translated into HTTPNotFound, which falcon renders as a
404 response with no body. -/
def Item.on_get (storage_path : String) (fs : Fs) (name : String) : GetResp :=
  let ct := mimetypes_guess_type_fst name
  match ImageStore.openImage storage_path fs name with
  | Except.ok p =>
    { status := 200, contentType := ct, body := some p.1, streamLen := some p.2 }
  | Except.error _ =>
    { status := 404, contentType := none, body := none, streamLen := none }

/-- Characters that the image-name pattern can possibly match: lowercase hex,
lowercase letters, hyphen, dot, and the newline the Python dollar tolerates. -/
def allowedChar (c : Char) : Bool :=
  isLowerHexDigit c || isLowerAlpha c || decide (c = '-') || decide (c = '.') ||
    decide (c = '\n')

/-- Property of a consumer: success is stable under extending the input, with
the extension surviving into the remainder. -/
def CAppend (f : List Char → Option (List Char)) : Prop :=
  ∀ xs ys r, f xs = some r → f (xs ++ ys) = some (r ++ ys)

/-- Property of a consumer: a successful run splits the input into a consumed
prefix that the consumer accepts exactly, all of whose characters are in the
pattern's alphabet, and the untouched remainder. -/
def CDecomp (f : List Char → Option (List Char)) : Prop :=
  ∀ xs r, f xs = some r →
    ∃ pre, xs = pre ++ r ∧ f pre = some [] ∧ ∀ c ∈ pre, allowedChar c = true

theorem consumeHex_capp : ∀ n, CAppend (consumeHex n) := by
  intro n
  induction n with
  | zero =>
    intro xs ys r h
    simp only [consumeHex, Option.some.injEq] at h
    subst h
    rfl
  | succ n ih =>
    intro xs ys r h
    cases xs with
    | nil => simp [consumeHex] at h
    | cons c cs =>
      by_cases hc : isLowerHexDigit c
      · simp only [consumeHex, hc, if_true] at h
        simpa only [List.cons_append, consumeHex, hc, if_true] using ih cs ys r h
      · simp [consumeHex, hc] at h

theorem consumeChar_capp : ∀ c, CAppend (consumeChar c) := by
  intro c xs ys r h
  cases xs with
  | nil => simp [consumeChar] at h
  | cons x xs =>
    by_cases hx : x = c
    · simp only [consumeChar, hx, if_true, Option.some.injEq] at h
      subst h
      simp [consumeChar, hx]
    · simp [consumeChar, hx] at h

theorem cseq_capp {f g : List Char → Option (List Char)}
    (hf : CAppend f) (hg : CAppend g) : CAppend (cseq f g) := by
  intro xs ys r h
  unfold cseq at h ⊢
  cases hm : f xs with
  | none => rw [hm] at h; simp at h
  | some m =>
    rw [hm] at h
    simp only [Option.bind_eq_bind, Option.some_bind] at h
    rw [hf xs ys m hm]
    simpa using hg m ys r h

theorem uuidCore_capp : CAppend uuidCore := by
  unfold uuidCore
  exact cseq_capp (consumeHex_capp 8) (cseq_capp (consumeChar_capp '-')
    (cseq_capp (consumeHex_capp 4) (cseq_capp (consumeChar_capp '-')
      (cseq_capp (consumeHex_capp 4) (cseq_capp (consumeChar_capp '-')
        (cseq_capp (consumeHex_capp 4) (cseq_capp (consumeChar_capp '-')
          (consumeHex_capp 12))))))))

theorem consumeHex_cdec : ∀ n, CDecomp (consumeHex n) := by
  intro n
  induction n with
  | zero =>
    intro xs r h
    simp only [consumeHex, Option.some.injEq] at h
    subst h
    exact ⟨[], rfl, rfl, by simp⟩
  | succ n ih =>
    intro xs r h
    cases xs with
    | nil => simp [consumeHex] at h
    | cons c cs =>
      by_cases hc : isLowerHexDigit c
      · simp only [consumeHex, hc, if_true] at h
        obtain ⟨pre, hsplit, hpre, hall⟩ := ih cs r h
        refine ⟨c :: pre, by simp [hsplit], ?_, ?_⟩
        · simpa only [consumeHex, hc, if_true] using hpre
        · intro x hx
          rcases List.mem_cons.mp hx with rfl | hx
          · simp [allowedChar, hc]
          · exact hall x hx
      · simp [consumeHex, hc] at h

theorem consumeChar_cdec (c : Char) (hc : allowedChar c = true) :
    CDecomp (consumeChar c) := by
  intro xs r h
  cases xs with
  | nil => simp [consumeChar] at h
  | cons x xs =>
    by_cases hx : x = c
    · simp only [consumeChar, hx, if_true, Option.some.injEq] at h
      subst h
      refine ⟨[x], rfl, by simp [consumeChar, hx], ?_⟩
      intro y hy
      rcases List.mem_singleton.mp hy with rfl
      rw [hx]
      exact hc
    · simp [consumeChar, hx] at h

theorem cseq_cdec {f g : List Char → Option (List Char)}
    (hfa : CAppend f) (hf : CDecomp f) (hg : CDecomp g) : CDecomp (cseq f g) := by
  intro xs r h
  unfold cseq at h
  cases hm : f xs with
  | none => rw [hm] at h; simp at h
  | some m =>
    rw [hm] at h
    simp only [Option.bind_eq_bind, Option.some_bind] at h
    obtain ⟨pf, hfs, hfp, hfall⟩ := hf xs m hm
    obtain ⟨pg, hgs, hgp, hgall⟩ := hg m r h
    refine ⟨pf ++ pg, ?_, ?_, ?_⟩
    · rw [hfs, hgs, List.append_assoc]
    · unfold cseq
      have : f (pf ++ pg) = some pg := by simpa using hfa pf pg [] hfp
      rw [this]
      simpa using hgp
    · intro x hx
      rcases List.mem_append.mp hx with hx | hx
      · exact hfall x hx
      · exact hgall x hx

theorem uuidCore_cdec : CDecomp uuidCore := by
  unfold uuidCore
  exact cseq_cdec (consumeHex_capp 8) (consumeHex_cdec 8)
    (cseq_cdec (consumeChar_capp '-') (consumeChar_cdec '-' (by decide))
      (cseq_cdec (consumeHex_capp 4) (consumeHex_cdec 4)
        (cseq_cdec (consumeChar_capp '-') (consumeChar_cdec '-' (by decide))
          (cseq_cdec (consumeHex_capp 4) (consumeHex_cdec 4)
            (cseq_cdec (consumeChar_capp '-') (consumeChar_cdec '-' (by decide))
              (cseq_cdec (consumeHex_capp 4) (consumeHex_cdec 4)
                (cseq_cdec (consumeChar_capp '-') (consumeChar_cdec '-' (by decide))
                  (consumeHex_cdec 12))))))))

theorem namePrefix_capp : CAppend (cseq uuidCore (consumeChar '.')) :=
  cseq_capp uuidCore_capp (consumeChar_capp '.')

theorem namePrefix_cdec : CDecomp (cseq uuidCore (consumeChar '.')) :=
  cseq_cdec uuidCore_capp uuidCore_cdec (consumeChar_cdec '.' (by decide))

theorem pyDollarEnd_cases (cs : List Char) (h : pyDollarEnd cs = true) :
    cs = [] ∨ cs = ['\n'] := by
  match cs with
  | [] => exact Or.inl rfl
  | [c] =>
    right
    have : c = '\n' := by simpa [pyDollarEnd] using h
    rw [this]
  | _ :: _ :: _ => simp [pyDollarEnd] at h

theorem extAt_exists (rest : List Char)
    (h : (extAt 2 rest || extAt 3 rest || extAt 4 rest) = true) :
    ∃ k, (k = 2 ∨ k = 3 ∨ k = 4) ∧ extAt k rest = true := by
  rw [Bool.or_eq_true, Bool.or_eq_true] at h
  rcases h with (h | h) | h
  · exact ⟨2, Or.inl rfl, h⟩
  · exact ⟨3, Or.inr (Or.inl rfl), h⟩
  · exact ⟨4, Or.inr (Or.inr rfl), h⟩

theorem extAt_parts (k : Nat) (cs : List Char) (h : extAt k cs = true) :
    k ≤ cs.length ∧ (cs.take k).all isLowerAlpha = true ∧
      pyDollarEnd (cs.drop k) = true := by
  unfold extAt at h
  rw [Bool.and_eq_true, Bool.and_eq_true] at h
  rcases h with ⟨⟨h1, h2⟩, h3⟩
  exact ⟨of_decide_eq_true h1, h2, h3⟩

theorem matches_chars_allowed (s : String) (h : matchesImageName s = true) :
    ∀ c ∈ s.data, allowedChar c = true := by
  unfold matchesImageName at h
  cases hm : cseq uuidCore (consumeChar '.') s.data with
  | none => rw [hm] at h; simp at h
  | some rest =>
    rw [hm] at h
    obtain ⟨pre, hsplit, _, hall⟩ := namePrefix_cdec s.data rest hm
    obtain ⟨k, _, hk⟩ := extAt_exists rest h
    obtain ⟨_, htake, hdrop⟩ := extAt_parts k rest hk
    intro c hc
    rw [hsplit] at hc
    rcases List.mem_append.mp hc with hc | hc
    · exact hall c hc
    · rw [← List.take_append_drop k rest] at hc
      rcases List.mem_append.mp hc with hc | hc
      · have := List.all_eq_true.mp htake c hc
        simp [allowedChar, this]
      · rcases pyDollarEnd_cases _ hdrop with he | he
        · rw [he] at hc; simp at hc
        · rw [he] at hc
          rcases List.mem_singleton.mp hc with rfl
          decide

theorem not_matches_of_mem_slash (s : String) (h : '/' ∈ s.data) :
    matchesImageName s = false := by
  by_cases hm : matchesImageName s = true
  · exact absurd (matches_chars_allowed s hm '/' h) (by decide)
  · exact Bool.not_eq_true _ |>.mp hm

theorem uuidCore_of_isUuid (u : String) (h : isUuidString u = true) :
    uuidCore u.data = some [] := by
  cases hm : uuidCore u.data with
  | none => simp [isUuidString, hm] at h
  | some l =>
    cases l with
    | nil => rfl
    | cons c cs => simp [isUuidString, hm] at h

theorem namePrefix_of_uuid (u : String) (h : isUuidString u = true)
    (rest : List Char) :
    cseq uuidCore (consumeChar '.') (u.data ++ ('.' :: rest)) = some rest := by
  unfold cseq
  have := uuidCore_capp u.data ('.' :: rest) [] (uuidCore_of_isUuid u h)
  rw [this]
  simp [consumeChar]

theorem matches_uuid_png (u : String) (h : isUuidString u = true) :
    matchesImageName (u ++ ".png") = true := by
  unfold matchesImageName
  have hdata : (u ++ ".png").data = u.data ++ ('.' :: ['p', 'n', 'g']) := by
    rw [String.data_append]
  rw [hdata, namePrefix_of_uuid u h ['p', 'n', 'g']]
  decide

theorem not_matches_uuid_none (u : String) (h : isUuidString u = true) :
    matchesImageName (u ++ "None") = false := by
  unfold matchesImageName
  have hdata : (u ++ "None").data = u.data ++ ['N', 'o', 'n', 'e'] := by
    rw [String.data_append]
  rw [hdata]
  unfold cseq
  have := uuidCore_capp u.data ['N', 'o', 'n', 'e'] [] (uuidCore_of_isUuid u h)
  rw [this]
  decide

theorem specStrict_of_parts (s : String) (pre e : List Char) (k : Nat)
    (hdata : s.data = pre ++ e)
    (hpre : cseq uuidCore (consumeChar '.') pre = some [])
    (hkmem : k = 2 ∨ k = 3 ∨ k = 4) (hlen : e.length = k)
    (hall : e.all isLowerAlpha = true) :
    specStrictName s = true := by
  unfold specStrictName
  have hP : cseq uuidCore (consumeChar '.') (pre ++ e) = some e := by
    simpa using namePrefix_capp pre e [] hpre
  rw [hdata, hP]
  have hstrict : extStrictAt k e = true := by
    unfold extStrictAt
    rw [Bool.and_eq_true, Bool.and_eq_true]
    refine ⟨⟨decide_eq_true (le_of_eq hlen.symm), ?_⟩, ?_⟩
    · rw [List.take_of_length_le (le_of_eq hlen)]
      exact hall
    · rw [List.drop_eq_nil_of_le (le_of_eq hlen)]
      rfl
  rw [Bool.or_eq_true, Bool.or_eq_true]
  rcases hkmem with rfl | rfl | rfl
  · exact Or.inl (Or.inl hstrict)
  · exact Or.inl (Or.inr hstrict)
  · exact Or.inr hstrict

theorem strictOrNl_of_matches (s : String) (h : matchesImageName s = true) :
    specStrictNameOrNl s = true := by
  unfold matchesImageName at h
  cases hm : cseq uuidCore (consumeChar '.') s.data with
  | none => rw [hm] at h; simp at h
  | some rest =>
    rw [hm] at h
    obtain ⟨k, hkmem, hk⟩ := extAt_exists rest h
    obtain ⟨hkle, htake, hdrop⟩ := extAt_parts k rest hk
    obtain ⟨pre, hsplit, hpre, _⟩ := namePrefix_cdec s.data rest hm
    have hrest : rest.take k ++ rest.drop k = rest := List.take_append_drop k rest
    have hlen : (rest.take k).length = k := by
      rw [List.length_take]
      omega
    rcases pyDollarEnd_cases _ hdrop with ht | ht
    · have hs : s.data = pre ++ rest.take k := by
        rw [hsplit]
        conv_lhs => rw [← hrest]
        rw [ht, List.append_nil]
      have hstrict := specStrict_of_parts s pre (rest.take k) k hs hpre hkmem hlen htake
      unfold specStrictNameOrNl
      rw [Bool.or_eq_true]
      exact Or.inl hstrict
    · have hs : s.data = (pre ++ rest.take k) ++ ['\n'] := by
        rw [hsplit]
        conv_lhs => rw [← hrest]
        rw [ht, List.append_assoc]
      have hstrict := specStrict_of_parts (String.mk (pre ++ rest.take k)) pre
        (rest.take k) k rfl hpre hkmem hlen htake
      unfold specStrictNameOrNl
      rw [Bool.or_eq_true]
      right
      rw [hs, List.getLast?_concat, List.dropLast_concat]
      simp [hstrict]

theorem not_matches_of_not_strictOrNl (s : String)
    (h : specStrictNameOrNl s = false) : matchesImageName s = false := by
  by_cases hm : matchesImageName s = true
  · rw [strictOrNl_of_matches s hm] at h
    exact absurd h (by decide)
  · exact Bool.not_eq_true _ |>.mp hm

theorem lookupFs_writeFs (fs : Fs) (p : String) (c : List Nat) :
    lookupFs (writeFs fs p c) p = some c := by
  simp [lookupFs, writeFs]

theorem copyLoop_flatten_aux :
    ∀ N s, streamBytes s ≤ N → (∀ b ∈ s, b ≠ ([] : List Nat)) →
      copyLoop s = s.flatten := by
  intro N
  induction N with
  | zero =>
    intro s hN hb
    cases s with
    | nil => rw [copyLoop]; simp [streamRead]
    | cons b rest =>
      exfalso
      have hlen : b.length = 0 := by
        simp only [streamBytes, List.map_cons, List.sum_cons] at hN
        omega
      exact hb b (List.mem_cons_self b rest) (List.eq_nil_of_length_eq_zero hlen)
  | succ N ih =>
    intro s hN hb
    cases s with
    | nil => rw [copyLoop]; simp [streamRead]
    | cons b rest =>
      have hbne : b ≠ [] := hb b (List.mem_cons_self b rest)
      have hbpos : 0 < b.length :=
        Nat.pos_of_ne_zero fun h0 => hbne (List.eq_nil_of_length_eq_zero h0)
      have hN' : b.length + streamBytes rest ≤ N + 1 := by
        simpa [streamBytes] using hN
      by_cases hle : b.length ≤ CHUNK_SIZE_BYTES
      · have hread : streamRead CHUNK_SIZE_BYTES (b :: rest) = (b, rest) := by
          simp [streamRead, hle]
        have hrec := ih rest (by omega) fun x hx => hb x (List.mem_cons_of_mem _ hx)
        rw [copyLoop]
        simp only [hread]
        rw [dif_neg hbne, hrec, List.flatten_cons]
      · have hread : streamRead CHUNK_SIZE_BYTES (b :: rest) =
            (b.take CHUNK_SIZE_BYTES, b.drop CHUNK_SIZE_BYTES :: rest) := by
          simp [streamRead, hle]
        have hchunk : 0 < CHUNK_SIZE_BYTES := by decide
        have htkne : b.take CHUNK_SIZE_BYTES ≠ [] := by
          intro h0
          have := congrArg List.length h0
          simp only [List.length_take, List.length_nil] at this
          omega
        have hdropne : b.drop CHUNK_SIZE_BYTES ≠ [] := by
          intro h0
          have := congrArg List.length h0
          simp only [List.length_drop, List.length_nil] at this
          omega
        have hsum : streamBytes (b.drop CHUNK_SIZE_BYTES :: rest) ≤ N := by
          simp only [streamBytes, List.map_cons, List.sum_cons, List.length_drop]
          simp only [streamBytes] at hN'
          omega
        have hne : ∀ x ∈ b.drop CHUNK_SIZE_BYTES :: rest, x ≠ ([] : List Nat) := by
          intro x hx
          rcases List.mem_cons.mp hx with rfl | hx
          · exact hdropne
          · exact hb x (List.mem_cons_of_mem _ hx)
        have hrec := ih (b.drop CHUNK_SIZE_BYTES :: rest) hsum hne
        rw [copyLoop]
        simp only [hread]
        rw [dif_neg htkne, hrec, List.flatten_cons, List.flatten_cons,
          ← List.append_assoc, List.take_append_drop]

theorem copyLoop_flatten (s : ByteStream) (hb : ∀ b ∈ s, b ≠ ([] : List Nat)) :
    copyLoop s = s.flatten :=
  copyLoop_flatten_aux (streamBytes s) s le_rfl hb

/-- Claim C1, counterexample to the claim as stated: this name does not match
the strict pattern (it carries a trailing newline, so something follows the
extension), yet ImageStore.open does not fail with NotFound when a file of
that name exists: the Python dollar anchor accepts the trailing newline, and
open returns a stream. -/
theorem claim_C1_counterexample :
    specStrictName "aaaaaaaa-aaaa-aaaa-aaaa-aaaaaaaaaaaa.png\n" = false ∧
    ImageStore.openImage "storage"
        [("storage/aaaaaaaa-aaaa-aaaa-aaaa-aaaaaaaaaaaa.png\n", [7, 7])]
        "aaaaaaaa-aaaa-aaaa-aaaa-aaaaaaaaaaaa.png\n" = Except.ok ([7, 7], 2) := by
  exact ⟨by decide, rfl⟩

/-- Claim C1 (amended): for every string name that matches neither the strict
name pattern (lowercase-hex UUID in groups 8-4-4-4-12, a dot, an extension of
2-4 lowercase letters, nothing before or after) nor that pattern followed by
exactly one trailing newline (which Python's dollar anchor also accepts),
ImageStore.open fails with the NotFound condition (raises IOError), returns no
stream, and performs no filesystem access. -/
theorem claim_C1 (storage_path name : String) (fs : Fs)
    (h : specStrictNameOrNl name = false) :
    ImageStore.openT storage_path fs name =
      (Except.error (IOErr.mk "File not found"), []) := by
  simp [ImageStore.openT, not_matches_of_not_strictOrNl name h]

theorem claim_C1_witness :
    specStrictNameOrNl "zz" = false ∧
    ImageStore.openT "storage" [] "zz" =
      (Except.error (IOErr.mk "File not found"), []) :=
  ⟨by decide, claim_C1 "storage" "zz" [] (by decide)⟩

/-- Claim C2: ImageStore.open rejects the traversal name ../../etc/passwd.png
with the NotFound IOError and an empty filesystem-access trace, and more
generally rejects every name containing a path separator the same way, so it
never resolves a path outside the storage directory. -/
theorem claim_C2 (storage_path : String) (fs : Fs) :
    ImageStore.openT storage_path fs "../../etc/passwd.png" =
      (Except.error (IOErr.mk "File not found"), []) ∧
    ∀ name : String, '/' ∈ name.data →
      ImageStore.openT storage_path fs name =
        (Except.error (IOErr.mk "File not found"), []) := by
  constructor
  · have hm : matchesImageName "../../etc/passwd.png" = false := by decide
    simp [ImageStore.openT, hm]
  · intro name h
    simp [ImageStore.openT, not_matches_of_mem_slash name h]

theorem claim_C2_witness :
    '/' ∈ ("st/x.png" : String).data ∧
    ImageStore.openT "storage" [] "st/x.png" =
      (Except.error (IOErr.mk "File not found"), []) :=
  ⟨by decide, (claim_C2 "storage" []).2 "st/x.png" (by decide)⟩

/-- Claim C9: ImageStore.open validates the name before any other action: for
a name failing the pattern check it raises the validation IOError with an
empty filesystem-access trace (no path opened, no size measured), and the
outcome is independent of the filesystem contents, which are left unchanged by
construction. -/
theorem claim_C9 (storage_path name : String) (fs : Fs)
    (h : matchesImageName name = false) :
    ImageStore.openT storage_path fs name =
      (Except.error (IOErr.mk "File not found"), []) ∧
    ∀ fs2 : Fs, ImageStore.openT storage_path fs2 name =
      ImageStore.openT storage_path fs name := by
  constructor
  · simp [ImageStore.openT, h]
  · intro fs2
    simp [ImageStore.openT, h]

theorem claim_C9_witness :
    matchesImageName "not-a-valid-name" = false ∧
    ImageStore.openT "storage" [("storage/not-a-valid-name", [1])] "not-a-valid-name" =
      (Except.error (IOErr.mk "File not found"), []) :=
  ⟨by decide,
    (claim_C9 "storage" "not-a-valid-name" [("storage/not-a-valid-name", [1])]
      (by decide)).1⟩

/-- Claim C4: for every declared content type outside the allow-list, the
Collection POST entry point fails with the HTTPBadRequest client error (a 400
response) raised by the before hook; the result is the bare error, independent
of the stream and the filesystem, so no body bytes are read or written and
ImageStore.save is never invoked. -/
theorem claim_C4 (storage_path u content_type : String)
    (stream : ByteStream) (fs : Fs)
    (h : content_type ∉ ALLOWED_IMAGE_TYPES) :
    Collection.on_post storage_path u content_type stream fs =
      Except.error (HTTPError.badRequest "Bad request"
        "Image Type not allowed. Must be PNG, JPEG, or GIF") := by
  simp [Collection.on_post, validate_image_types, h]

theorem claim_C4_witness :
    "image/bmp" ∉ ALLOWED_IMAGE_TYPES ∧
    Collection.on_post "storage" "u" "image/bmp" [[1, 2, 3]] [] =
      Except.error (HTTPError.badRequest "Bad request"
        "Image Type not allowed. Must be PNG, JPEG, or GIF") :=
  ⟨by decide, claim_C4 "storage" "u" "image/bmp" [[1, 2, 3]] [] (by decide)⟩

/-- Claim C5: ImageStore.open surfaces exactly one error kind: a name failing
the pattern and a well-formed name with no backing file both yield an IOErr,
and the Item GET handler translates either into the identical 404 response
with no body. -/
theorem claim_C5 (storage_path name : String) (fs : Fs)
    (h : matchesImageName name = false ∨
      lookupFs fs (os_path_join storage_path name) = none) :
    (∃ e : IOErr, ImageStore.openImage storage_path fs name = Except.error e) ∧
    Item.on_get storage_path fs name =
      { status := 404, contentType := none, body := none, streamLen := none } := by
  have herr : ∃ e : IOErr,
      ImageStore.openImage storage_path fs name = Except.error e := by
    rcases h with h | h
    · exact ⟨IOErr.mk "File not found",
        by simp [ImageStore.openImage, ImageStore.openT, h]⟩
    · by_cases hm : matchesImageName name = false
      · exact ⟨IOErr.mk "File not found",
          by simp [ImageStore.openImage, ImageStore.openT, hm]⟩
      · refine ⟨IOErr.mk "No such file or directory", ?_⟩
        simp only [ImageStore.openImage, ImageStore.openT, if_neg hm, h]
  obtain ⟨e, he⟩ := herr
  refine ⟨⟨e, he⟩, ?_⟩
  simp [Item.on_get, he]

theorem claim_C5_witness :
    (matchesImageName "aaaaaaaa-aaaa-aaaa-aaaa-aaaaaaaaaaaa.png" = false ∨
      lookupFs [] (os_path_join "storage" "aaaaaaaa-aaaa-aaaa-aaaa-aaaaaaaaaaaa.png") =
        none) ∧
    ((∃ e : IOErr, ImageStore.openImage "storage" []
        "aaaaaaaa-aaaa-aaaa-aaaa-aaaaaaaaaaaa.png" = Except.error e) ∧
      Item.on_get "storage" [] "aaaaaaaa-aaaa-aaaa-aaaa-aaaaaaaaaaaa.png" =
        { status := 404, contentType := none, body := none, streamLen := none }) :=
  ⟨Or.inr rfl,
    claim_C5 "storage" "aaaaaaaa-aaaa-aaaa-aaaa-aaaaaaaaaaaa.png" [] (Or.inr rfl)⟩

/-- Claim C6: for every content type in the allow-list, ImageStore.save
returns a name equal to the injected UUID immediately followed by the derived
extension, and that extension is the one conventionally mapped to the type:
.gif for image/gif, .jpg for image/jpeg, .png for image/png. -/
theorem claim_C6 (storage_path u content_type : String)
    (stream : ByteStream) (fs : Fs)
    (h : content_type ∈ ALLOWED_IMAGE_TYPES) :
    ∃ ext : String, mimetypes_guess_extension content_type = some ext ∧
      (ImageStore.save storage_path u content_type stream fs).1 = u ++ ext ∧
      (content_type = "image/gif" → ext = ".gif") ∧
      (content_type = "image/jpeg" → ext = ".jpg") ∧
      (content_type = "image/png" → ext = ".png") := by
  simp only [ALLOWED_IMAGE_TYPES, List.mem_cons, List.not_mem_nil, or_false] at h
  rcases h with rfl | rfl | rfl
  · exact ⟨".gif", rfl, rfl, by simp, by simp, by simp⟩
  · exact ⟨".jpg", rfl, rfl, by simp, by simp, by simp⟩
  · exact ⟨".png", rfl, rfl, by simp, by simp, by simp⟩

theorem claim_C6_witness :
    "image/png" ∈ ALLOWED_IMAGE_TYPES ∧
    ∃ ext : String, mimetypes_guess_extension "image/png" = some ext ∧
      (ImageStore.save "storage" "aaaaaaaa-aaaa-aaaa-aaaa-aaaaaaaaaaaa" "image/png"
        [[1, 2]] []).1 = "aaaaaaaa-aaaa-aaaa-aaaa-aaaaaaaaaaaa" ++ ext ∧
      ("image/png" = "image/gif" → ext = ".gif") ∧
      ("image/png" = "image/jpeg" → ext = ".jpg") ∧
      ("image/png" = "image/png" → ext = ".png") :=
  ⟨by decide,
    claim_C6 "storage" "aaaaaaaa-aaaa-aaaa-aaaa-aaaaaaaaaaaa" "image/png"
      [[1, 2]] [] (by decide)⟩

/-- Claim C3: round-trip — saving any finite stream under content type
image/png (with the injected generator producing a UUID string) yields a name
that open accepts, returning a stream whose bytes are exactly the
concatenation of the uploaded stream's bytes and a length equal to that byte
count. -/
theorem claim_C3 (storage_path u : String) (stream : ByteStream) (fs : Fs)
    (hu : isUuidString u = true) (hs : ∀ b ∈ stream, b ≠ ([] : List Nat)) :
    ImageStore.openImage storage_path
        (ImageStore.save storage_path u "image/png" stream fs).2
        (ImageStore.save storage_path u "image/png" stream fs).1 =
      Except.ok (stream.flatten, stream.flatten.length) := by
  have hname : (ImageStore.save storage_path u "image/png" stream fs).1 =
      u ++ ".png" := rfl
  have hfs : (ImageStore.save storage_path u "image/png" stream fs).2 =
      writeFs fs (os_path_join storage_path (u ++ ".png")) (copyLoop stream) := rfl
  rw [hname, hfs]
  simp [ImageStore.openImage, ImageStore.openT, matches_uuid_png u hu,
    lookupFs_writeFs, copyLoop_flatten stream hs]

theorem claim_C3_witness :
    isUuidString "aaaaaaaa-aaaa-aaaa-aaaa-aaaaaaaaaaaa" = true ∧
    ImageStore.openImage "storage"
        (ImageStore.save "storage" "aaaaaaaa-aaaa-aaaa-aaaa-aaaaaaaaaaaa"
          "image/png" [[1, 2], [3]] []).2
        (ImageStore.save "storage" "aaaaaaaa-aaaa-aaaa-aaaa-aaaaaaaaaaaa"
          "image/png" [[1, 2], [3]] []).1 =
      Except.ok (([[1, 2], [3]] : ByteStream).flatten,
        ([[1, 2], [3]] : ByteStream).flatten.length) :=
  ⟨by decide,
    claim_C3 "storage" "aaaaaaaa-aaaa-aaaa-aaaa-aaaaaaaaaaaa" [[1, 2], [3]] []
      (by decide) (by decide)⟩

/-- Claim C7: the chunked copy loop of ImageStore.save terminates for every
stream that eventually returns an empty read (the loop is a total function on
the stream model), every read returns at most CHUNK_SIZE_BYTES bytes, and an
upload totalling 10000 bytes delivered in arbitrarily small chunks is persisted
in full before the name is returned: the stored file is exactly the
concatenation of the stream's bytes and has length 10000. -/
theorem claim_C7 (storage_path u content_type : String)
    (stream : ByteStream) (fs : Fs)
    (hs : ∀ b ∈ stream, b ≠ ([] : List Nat))
    (htotal : streamBytes stream = 10000) :
    lookupFs (ImageStore.save storage_path u content_type stream fs).2
        (os_path_join storage_path
          (ImageStore.save storage_path u content_type stream fs).1) =
      some stream.flatten ∧
    stream.flatten.length = 10000 ∧
    ∀ s2 : ByteStream, ((streamRead CHUNK_SIZE_BYTES s2).1).length ≤
      CHUNK_SIZE_BYTES := by
  refine ⟨?_, ?_, ?_⟩
  · have hfs : (ImageStore.save storage_path u content_type stream fs).2 =
        writeFs fs
          (os_path_join storage_path
            (ImageStore.save storage_path u content_type stream fs).1)
          (copyLoop stream) := rfl
    rw [hfs, lookupFs_writeFs, copyLoop_flatten stream hs]
  · rw [List.length_flatten]
    exact htotal
  · intro s2
    rcases streamRead_fst_length_le CHUNK_SIZE_BYTES s2 with h | h
    · exact h
    · rw [h]
      exact Nat.zero_le _

theorem claim_C7_witness :
    (∀ b ∈ (List.replicate 2500 [0, 0, 0, 0] : ByteStream), b ≠ ([] : List Nat)) ∧
    streamBytes (List.replicate 2500 [0, 0, 0, 0]) = 10000 ∧
    (lookupFs (ImageStore.save "storage" "u" "image/png"
          (List.replicate 2500 [0, 0, 0, 0]) []).2
        (os_path_join "storage"
          (ImageStore.save "storage" "u" "image/png"
            (List.replicate 2500 [0, 0, 0, 0]) []).1) =
      some (List.replicate 2500 [0, 0, 0, 0] : ByteStream).flatten ∧
    (List.replicate 2500 [0, 0, 0, 0] : ByteStream).flatten.length = 10000 ∧
    ∀ s2 : ByteStream, ((streamRead CHUNK_SIZE_BYTES s2).1).length ≤
      CHUNK_SIZE_BYTES) := by
  have h1 : ∀ b ∈ (List.replicate 2500 [0, 0, 0, 0] : ByteStream),
      b ≠ ([] : List Nat) := by
    intro b hb
    rw [(List.mem_replicate.mp hb).2]
    decide
  have h2 : streamBytes (List.replicate 2500 [0, 0, 0, 0]) = 10000 := by
    rw [streamBytes, List.map_replicate, List.sum_replicate, smul_eq_mul]
    decide
  exact ⟨h1, h2, claim_C7 "storage" "u" "image/png" _ [] h1 h2⟩

/-- Claim C8: when the declared content type has no extension mapping,
ImageStore.save does not fail: it returns the UUID with the literal text None
appended (no dot), and every such name fails open's validation, so the stored
file can never be retrieved through open on any filesystem. -/
theorem claim_C8 (storage_path u content_type : String)
    (stream : ByteStream) (fs : Fs)
    (hext : mimetypes_guess_extension content_type = none)
    (hu : isUuidString u = true) :
    (ImageStore.save storage_path u content_type stream fs).1 = u ++ "None" ∧
    matchesImageName (u ++ "None") = false ∧
    ∀ fs2 : Fs, ImageStore.openImage storage_path fs2 (u ++ "None") =
      Except.error (IOErr.mk "File not found") := by
  have hnm := not_matches_uuid_none u hu
  refine ⟨?_, hnm, ?_⟩
  · simp [ImageStore.save, hext, pyFormatExt]
  · intro fs2
    simp [ImageStore.openImage, ImageStore.openT, hnm]

theorem claim_C8_witness :
    mimetypes_guess_extension "application/x-unknown" = none ∧
    isUuidString "aaaaaaaa-aaaa-aaaa-aaaa-aaaaaaaaaaaa" = true ∧
    ((ImageStore.save "storage" "aaaaaaaa-aaaa-aaaa-aaaa-aaaaaaaaaaaa"
        "application/x-unknown" [[5]] []).1 =
      "aaaaaaaa-aaaa-aaaa-aaaa-aaaaaaaaaaaa" ++ "None" ∧
    matchesImageName ("aaaaaaaa-aaaa-aaaa-aaaa-aaaaaaaaaaaa" ++ "None") = false ∧
    ∀ fs2 : Fs, ImageStore.openImage "storage" fs2
        ("aaaaaaaa-aaaa-aaaa-aaaa-aaaaaaaaaaaa" ++ "None") =
      Except.error (IOErr.mk "File not found")) :=
  ⟨by decide, by decide,
    claim_C8 "storage" "aaaaaaaa-aaaa-aaaa-aaaa-aaaaaaaaaaaa"
      "application/x-unknown" [[5]] [] (by decide) (by decide)⟩

/-- Claim C10: the Item GET handler takes its response content type from
mimetypes.guess_type(name) computed before the store is consulted; for a
valid-pattern name whose extension has no MIME mapping and whose file exists,
the handler returns a 200 response with the file's bytes and length but a
content type of None. -/
theorem claim_C10 (storage_path name : String) (fs : Fs) (bytes : List Nat)
    (hct : mimetypes_guess_type_fst name = none)
    (hmatch : matchesImageName name = true)
    (hfile : lookupFs fs (os_path_join storage_path name) = some bytes) :
    Item.on_get storage_path fs name =
      { status := 200, contentType := none, body := some bytes,
        streamLen := some bytes.length } := by
  have hopen : ImageStore.openImage storage_path fs name =
      Except.ok (bytes, bytes.length) := by
    simp [ImageStore.openImage, ImageStore.openT, hmatch, hfile]
  simp [Item.on_get, hopen, hct]

theorem claim_C10_witness :
    mimetypes_guess_type_fst "aaaaaaaa-aaaa-aaaa-aaaa-aaaaaaaaaaaa.zzzz" = none ∧
    matchesImageName "aaaaaaaa-aaaa-aaaa-aaaa-aaaaaaaaaaaa.zzzz" = true ∧
    lookupFs [("storage/aaaaaaaa-aaaa-aaaa-aaaa-aaaaaaaaaaaa.zzzz", [9, 8])]
      (os_path_join "storage" "aaaaaaaa-aaaa-aaaa-aaaa-aaaaaaaaaaaa.zzzz") =
      some [9, 8] ∧
    Item.on_get "storage" [("storage/aaaaaaaa-aaaa-aaaa-aaaa-aaaaaaaaaaaa.zzzz", [9, 8])]
        "aaaaaaaa-aaaa-aaaa-aaaa-aaaaaaaaaaaa.zzzz" =
      { status := 200, contentType := none, body := some [9, 8],
        streamLen := some 2 } := by
  refine ⟨by decide, by decide, by decide, ?_⟩
  have := claim_C10 "storage" "aaaaaaaa-aaaa-aaaa-aaaa-aaaaaaaaaaaa.zzzz"
    [("storage/aaaaaaaa-aaaa-aaaa-aaaa-aaaaaaaaaaaa.zzzz", [9, 8])] [9, 8]
    (by decide) (by decide) (by decide)
  simpa using this
